import Mathlib

/-!
# Verification development for the pump-monitor repository

A shallow embedding, in Lean 4, of the parts of the pump-monitor TypeScript
code base that the specification's claims talk about:

* `src/services/dexscreener.service.ts` — pair validation (`isValidPair`),
  the seen-set / high-water-mark discovery state (`getInitialPairs`,
  `getNewPairs`);
* `src/services/supabase.service.ts` — row conversion
  (`convertToTokenData`), upsert semantics (`insertToken`,
  `bulkInsertTokens`), achievement writes (`updateTokenAchievements`) and
  the retention `cleanup`;
* `src/monitoring/monitoring.engine.ts` — the per-token body of
  `checkTokenAchievements` and the reputation formula of
  `analyzeDevWallets` / `addTokenToDevWallet`;
* `src/services/telegram.service.ts` — `splitMessage`.

JavaScript numbers are modelled as exact rationals, except where a
non-finite value is actually producible by the embedded code (division by
zero in the achievement check): there the value space `NumV` with the two
infinities and NaN is used, with IEEE-754 comparison semantics for the
operations the code performs.  Strings handled character-by-character
(`splitMessage`) are modelled as `List Char`; identifier-like strings that
are only compared for equality stay `String`.  Timestamps are integers
(milliseconds, or the order-isomorphic ISO-8601 rendering the database
compares).
-/

namespace PumpMonitor

/-- A JavaScript IEEE-754 double, restricted to the values the embedded
code can actually produce: an exact rational, `+Infinity`, `-Infinity`, or
`NaN`.  (All numbers entering the monitor are exact decimal values from
JSON or the database; the only non-finite producer in the embedded code is
the unguarded division in the achievement check.) -/
inductive NumV where
  | fin (q : ℚ)
  | inf
  | ninf
  | nan
deriving DecidableEq, Repr

/-- JavaScript division `a / b` of two finite numbers: `a / 0` is
`+Infinity` for positive `a`, `-Infinity` for negative `a`, and `NaN` for
`0 / 0`; otherwise exact. -/
def jsDiv (a b : ℚ) : NumV :=
  if b ≠ 0 then .fin (a / b)
  else if 0 < a then .inf
  else if a < 0 then .ninf
  else .nan

/-- JavaScript comparison `x >= r` between a number `x` and a finite
number `r`: `+Infinity` is above everything, `-Infinity` below, and every
comparison with `NaN` is false. -/
def NumV.geQ : NumV → ℚ → Bool
  | .fin x, r => decide (r ≤ x)
  | .inf, _ => true
  | .ninf, _ => false
  | .nan, _ => false

/-- JavaScript `a || b` for an optional numeric field: `undefined` and `0`
are falsy and fall through to `b`. -/
def jsOrNum (a : Option ℚ) (b : ℚ) : ℚ :=
  match a with
  | none => b
  | some x => if x = 0 then b else x

/-- JavaScript `a || b` for an optional string field: `undefined` and the
empty string are falsy and fall through to `b`. -/
def jsOrStr (a : Option String) (b : String) : String :=
  match a with
  | none => b
  | some s => if s = "" then b else s

/-! ## Data model (src/types/token.types.ts) -/

/-- The `baseToken` sub-object of a DexScreener pair. -/
structure BaseToken where
  address : String
  name : String
  symbol : String
  ownerAddress : Option String
deriving DecidableEq, Repr

/-- `Token` from `src/types/token.types.ts`, restricted to the fields the
monitoring logic reads.  `priceUsd` is modelled as the rational value that
`parseFloat` yields on the source's string field; `pairCreatedAt` is an
optional millisecond timestamp (`none` models an absent field);
`liquidityUsd` models `liquidity?.usd`; `volumeH24` models `volume?.h24`. -/
structure Token where
  pairAddress : String
  baseToken : BaseToken
  quoteAddress : String
  quoteSymbol : String
  priceUsd : ℚ
  liquidityUsd : Option ℚ
  volumeH24 : Option ℚ
  marketCap : Option ℚ
  fdv : Option ℚ
  pairCreatedAt : Option ℤ
  url : String
deriving DecidableEq, Repr

/-- `TokenDetails` from `src/types/token.types.ts` (the snapshot
`getTokenDetails` returns). -/
structure TokenDetails where
  address : String
  name : String
  symbol : String
  price : ℚ
  marketCap : ℚ
  liquidity : ℚ
  volume24h : ℚ
  pairAddress : String
  createdAt : ℤ
  url : String
deriving DecidableEq, Repr

/-- `TokenData` from `src/types/token.types.ts`: a `monitored_tokens` row.
`created_at` / `last_updated` are the timestamp values whose ISO-8601
renderings the source stores (the rendering is order-isomorphic, so the
database's ordered comparisons act on these integers). -/
structure TokenData where
  address : String
  pair_address : String
  symbol : String
  name : String
  initial_price : ℚ
  initial_market_cap : ℚ
  dev_wallet : String
  achievements : List ℚ
  last_price : ℚ
  last_market_cap : ℚ
  created_at : ℤ
  last_updated : ℤ
deriving DecidableEq, Repr

/-- An `AchievementRecord` (`token_achievements` row) as built by the
achievement check; `achieved_at` is filled in by `recordAchievement` at
write time and carries no information the claims mention, so it is not
modelled. -/
structure AchievementRecord where
  token_address : String
  multiplier : ℚ
  price_at_achievement : ℚ
  market_cap_at_achievement : ℚ
deriving DecidableEq, Repr

/-- `ACHIEVEMENT_MULTIPLIERS` from `src/types/token.types.ts`. -/
def ACHIEVEMENT_MULTIPLIERS : List ℚ :=
  [1.1, 1.2, 1.3, 1.4, 1.5, 1.75, 2, 2.5, 3, 4, 5, 7.5, 10, 15, 20, 30, 50, 75, 100]

/-! ## Source Reader (src/services/dexscreener.service.ts) -/

/-- The mutable state of `DexScreenerService`: the set of already-returned
pair addresses and the high-water-mark timestamp.  The seen-set is kept as
a list of addresses (membership is all the source uses). -/
structure DexState where
  seenPairs : List String
  lastProcessedTimestamp : ℤ
deriving DecidableEq, Repr

/-- `isValidPair` (dexscreener.service.ts, lines 81–119).  The JS
truthiness guards on required string fields reject the empty string;
`!pair.pairCreatedAt || isNaN(pair.pairCreatedAt)` rejects an absent and
also a zero timestamp.  The object-presence guards (`!pair`,
`!pair.baseToken`, `!pair.quoteToken`) cannot fail on a well-typed record
and have no counterpart here.  The liquidity floor reads
`pair.liquidity?.usd || 0`. -/
def isValidPair (minLiquidityUsd : ℚ) (pair : Token) : Bool :=
  if pair.pairAddress = "" then false
  else if pair.baseToken.address = "" || pair.baseToken.symbol = "" then false
  else if (match pair.pairCreatedAt with | none => true | some t => t = 0) then false
  else
    let liquidity := jsOrNum pair.liquidityUsd 0
    if liquidity < minLiquidityUsd then false
    else true

/-- One step of the filter callback in `getInitialPairs` (lines 143–158):
a pair passing validity and the lookback window is appended to the
seen-set and kept.  The accumulator carries the evolving service state and
the kept pairs in order. -/
def initialPairsStep (minLiquidityUsd : ℚ) (lookbackTime : ℤ)
    (acc : DexState × List Token) (pair : Token) : DexState × List Token :=
  if isValidPair minLiquidityUsd pair then
    if lookbackTime ≤ pair.pairCreatedAt.getD 0 then
      ({ acc.1 with seenPairs := acc.1.seenPairs ++ [pair.pairAddress] },
       acc.2 ++ [pair])
    else acc
  else acc

/-- `getInitialPairs` (lines 125–167) applied to a fetched pair list:
filters on validity and the lookback window, recording kept pairs in the
seen-set.  `lookbackTime` is read once from the state before filtering,
exactly as the source does. -/
def getInitialPairs (minLiquidityUsd : ℚ) (s : DexState) (pairs : List Token) :
    DexState × List Token :=
  pairs.foldl (initialPairsStep minLiquidityUsd s.lastProcessedTimestamp) (s, [])

/-- One step of the filter callback in `getNewPairs` (lines 185–202):
skip invalid or already-seen pairs; a pair strictly newer than the
high-water mark is appended to the seen-set and kept.  The seen-set check
is against the live, growing set (`this.seenPairs.has`). -/
def newPairsStep (minLiquidityUsd : ℚ) (lastProcessed : ℤ)
    (acc : DexState × List Token) (pair : Token) : DexState × List Token :=
  if !(isValidPair minLiquidityUsd pair) || acc.1.seenPairs.contains pair.pairAddress then
    acc
  else if lastProcessed < pair.pairCreatedAt.getD 0 then
    ({ acc.1 with seenPairs := acc.1.seenPairs ++ [pair.pairAddress] },
     acc.2 ++ [pair])
  else acc

/-- `getNewPairs` (lines 173–227) applied to a fetched pair list: filters
as above and, when at least one new pair was found, advances the
high-water mark to the current time `now`. -/
def getNewPairs (minLiquidityUsd : ℚ) (now : ℤ) (s : DexState) (pairs : List Token) :
    DexState × List Token :=
  let res := pairs.foldl (newPairsStep minLiquidityUsd s.lastProcessedTimestamp) (s, [])
  if res.2 ≠ [] then
    ({ res.1 with lastProcessedTimestamp := now }, res.2)
  else res

/-- A call to one of the two fetch entry points of `DexScreenerService`,
with the pair list the external endpoint returned for that call (and, for
`getNewPairs`, the wall-clock time `Date.now()` reads). -/
inductive FetchCall where
  | initial (pairs : List Token)
  | incremental (now : ℤ) (pairs : List Token)
deriving Repr

/-- The pair list the external endpoint returned for a fetch call. -/
def FetchCall.pairs : FetchCall → List Token
  | .initial ps => ps
  | .incremental _ ps => ps

/-- Run one fetch call against the service state. -/
def runFetch (minLiquidityUsd : ℚ) (s : DexState) : FetchCall → DexState × List Token
  | .initial ps => getInitialPairs minLiquidityUsd s ps
  | .incremental now ps => getNewPairs minLiquidityUsd now s ps

/-- Run a sequence of fetch calls, threading the service state. -/
def runFetches (minLiquidityUsd : ℚ) (s : DexState) : List FetchCall → DexState
  | [] => s
  | c :: cs => runFetches minLiquidityUsd (runFetch minLiquidityUsd s c).1 cs

/-! ## Persistence Gateway (src/services/supabase.service.ts)

The `monitored_tokens` relation is modelled as a list of rows whose
`address` column is the conflict key (`UNIQUE` in the schema). -/

/-- `convertToTokenData` (supabase.service.ts, lines 256–271).  `now` is
the wall-clock instant `new Date()` reads for `last_updated`; `name` is
`baseToken.name || baseToken.symbol`; the valuations are
`marketCap || fdv || 0`; `dev_wallet` is `ownerAddress || 'unknown'`. -/
def convertToTokenData (now : ℤ) (token : Token) : TokenData :=
  { address := token.baseToken.address
    pair_address := token.pairAddress
    symbol := token.baseToken.symbol
    name := if token.baseToken.name = "" then token.baseToken.symbol else token.baseToken.name
    initial_price := token.priceUsd
    initial_market_cap := jsOrNum token.marketCap (jsOrNum token.fdv 0)
    dev_wallet := jsOrStr token.baseToken.ownerAddress "unknown"
    achievements := []
    last_price := token.priceUsd
    last_market_cap := jsOrNum token.marketCap (jsOrNum token.fdv 0)
    created_at := token.pairCreatedAt.getD 0
    last_updated := now }

/-- PostgREST upsert of one row with `onConflict: 'address'`.  With
`ignoreDuplicates: true` a conflicting row is left untouched
(`ON CONFLICT DO NOTHING`); with `ignoreDuplicates: false` the stored row
is overwritten with the supplied payload (`ON CONFLICT DO UPDATE` over
every supplied column — which here is every column of the row). -/
def upsertRow (ignoreDuplicates : Bool) (store : List TokenData) (row : TokenData) :
    List TokenData :=
  if store.any (fun r => r.address = row.address) then
    if ignoreDuplicates then store
    else store.map (fun r => if r.address = row.address then row else r)
  else store ++ [row]

/-- `insertToken` (supabase.service.ts, lines 325–349): upsert of the
converted row with `ignoreDuplicates: false`. -/
def insertToken (now : ℤ) (store : List TokenData) (token : Token) : List TokenData :=
  upsertRow false store (convertToTokenData now token)

/-- Row lookup by address (`getToken`, lines 356–376). -/
def getTokenRow (store : List TokenData) (address : String) : Option TokenData :=
  store.find? (fun r => r.address = address)

/-- The effective batch size of `bulkInsertTokens`:
`config.monitoring.batchSize || 50` (a zero / absent configured value is
falsy and falls through to 50). -/
def effBatchSize (cfg : ℕ) : ℕ :=
  if cfg = 0 then 50 else cfg

/-- The chunking loop of `bulkInsertTokens` (lines 287–290):
`for (let i = 0; i < tokens.length; i += batchSize)` slices off `B`
elements at a time. -/
def chunkList {α : Type} (B : ℕ) (hB : 0 < B) : List α → List (List α)
  | [] => []
  | a :: l => ((a :: l).take B) :: chunkList B hB ((a :: l).drop B)
termination_by l => l.length
decreasing_by
  simp only [List.length_drop, List.length_cons]
  omega

/-- Apply one committed batch upsert (`ignoreDuplicates: true`) to the
store: every row of the batch is inserted, rows whose address already
exists being skipped. -/
def applyBatch (store : List TokenData) (batch : List TokenData) : List TokenData :=
  batch.foldl (upsertRow true) store

/-- The observable outcome of a `bulkInsertTokens` call: the final store,
how many batch upsert operations were issued, and whether the call
returned normally (`ok = true`) or raised out of a failed batch. -/
structure BulkResult where
  store : List TokenData
  batchesAttempted : ℕ
  ok : Bool
deriving DecidableEq, Repr

/-- The batch loop of `bulkInsertTokens` (lines 295–315): batches are
issued in order; a batch that the database rejects (modelled by the
failure oracle `fails`, indexed by batch position) commits nothing of that
batch, and the error is re-thrown, aborting the remaining batches. -/
def runBatches (fails : ℕ → Bool) : List (List TokenData) → List TokenData → ℕ → BulkResult
  | [], store, n => ⟨store, n, true⟩
  | b :: bs, store, n =>
    if fails n then ⟨store, n + 1, false⟩
    else runBatches fails bs (applyBatch store b) (n + 1)

/-- `bulkInsertTokens` (supabase.service.ts, lines 277–318): an empty
token list returns without issuing any operation; otherwise the tokens are
converted, chunked into batches of the effective batch size, and upserted
batch by batch with `ignoreDuplicates: true`. -/
def bulkInsertTokens (cfgBatchSize : ℕ) (now : ℤ) (fails : ℕ → Bool)
    (store : List TokenData) (tokens : List Token) : BulkResult :=
  if tokens.length = 0 then ⟨store, 0, true⟩
  else
    let batches :=
      (chunkList (effBatchSize cfgBatchSize)
        (by unfold effBatchSize; split <;> omega) tokens).map
        (fun b => b.map (convertToTokenData now))
    runBatches fails batches store 0

/-- `updateTokenAchievements` (supabase.service.ts, lines 385–412):
updates the achievements array and last price/valuation of the row with
the given address. -/
def updateTokenAchievements (store : List TokenData) (address : String)
    (achievements : List ℚ) (lastPrice lastMarketCap : ℚ) (now : ℤ) : List TokenData :=
  store.map (fun r =>
    if r.address = address then
      { r with achievements := achievements, last_price := lastPrice,
               last_market_cap := lastMarketCap, last_updated := now }
    else r)

/-- `cleanup` (supabase.service.ts, lines 667–688): delete every
`monitored_tokens` row whose `created_at` is strictly older than the
cutoff and whose achievements array equals the empty array.  `cutoff` is
the instant `daysToKeep` days before now. -/
def cleanup (cutoff : ℤ) (store : List TokenData) : List TokenData :=
  store.filter (fun r => !(decide (r.created_at < cutoff) && decide (r.achievements = [])))

/-! ## Actor reputation (supabase.service.ts / monitoring.engine.ts) -/

/-- `DevWalletData` (src/types/database.types.ts), restricted to the
fields the reputation logic reads.  `reputation_score` is optional in the
source type (`none` models an absent field). -/
structure DevWalletData where
  address : String
  tokens_created : List String
  total_tokens : ℕ
  is_blacklisted : Bool
  reputation_score : Option ℤ
deriving DecidableEq, Repr

/-- The reputation formula of the `analyzeDevWallets` sweep
(monitoring.engine.ts, lines 790–796 of the engine source): start from the
neutral 50 and, for a wallet with more than 10 created tokens, subtract 2
per token above 10.  There is no clamp. -/
def sweepReputationScore (tokenCount : ℕ) : ℤ :=
  if 10 < tokenCount then 50 - ((tokenCount : ℤ) - 10) * 2 else 50

/-- The attribution-time reputation formula of `addTokenToDevWallet`
(supabase.service.ts, lines 605–608): `Math.max(0, 50 - (n - 10) * 5)`,
applied only when the wallet has more than 10 tokens. -/
def attributionReputationScore (tokenCount : ℕ) : ℤ :=
  max 0 (50 - ((tokenCount : ℤ) - 10) * 5)

/-- The per-wallet body of the `analyzeDevWallets` sweep: wallets with
fewer than 2 tokens are skipped; if the latest token's details were found,
the sweep score is computed and persisted only when it differs from the
stored score.  Returns the score the sweep persists (`some`) or `none`
when nothing is persisted. -/
def sweepWallet (wallet : DevWalletData) (detailsFound : Bool) : Option ℤ :=
  if wallet.tokens_created.length < 2 then none
  else if !detailsFound then none
  else
    let reputationScore := sweepReputationScore wallet.tokens_created.length
    if wallet.reputation_score ≠ some reputationScore then some reputationScore
    else none

/-! ## Milestone check (monitoring.engine.ts, checkTokenAchievements) -/

/-- The outcome of processing one token inside `checkTokenAchievements`:
the `recordAchievement` calls issued (in ladder order), the
`updateTokenAchievements` payload if one was written
(achievements array, last price, last market cap), and the multipliers
carried by the `sendAchievementAlert` calls issued. -/
structure CheckResult where
  records : List AchievementRecord
  update : Option (List ℚ × ℚ × ℚ)
  alerts : List ℚ
deriving DecidableEq, Repr

/-- The newly-achieved ladder rungs for one token at one check: the rungs
`r` of `ACHIEVEMENT_MULTIPLIERS`, in ladder order, with
`multiplier >= r` and `!token.achievements.includes(r)`, where
`multiplier = tokenDetails.marketCap / token.initial_market_cap` under
JavaScript division. -/
def newlyAchieved (token : TokenData) (d : TokenDetails) : List ℚ :=
  ACHIEVEMENT_MULTIPLIERS.filter
    (fun r => (jsDiv d.marketCap token.initial_market_cap).geQ r
      && !token.achievements.contains r)

/-- One iteration of the token loop of `checkTokenAchievements`
(monitoring.engine.ts): a token already holding the top-of-ladder
multiplier (`ACHIEVEMENT_MULTIPLIERS[length - 1]`) is skipped, as is a
token whose current details cannot be fetched (`details = none`).
Otherwise each newly-achieved rung is recorded, and if there is at least
one, the sorted merged achievements array is written back
(`.sort((a, b) => a - b)`) and one alert is sent carrying
`Math.max(...newAchievements)`. -/
def checkOneToken (token : TokenData) (details : Option TokenDetails) : CheckResult :=
  if token.achievements.contains (ACHIEVEMENT_MULTIPLIERS.getLastD 0) then
    ⟨[], none, []⟩
  else
    match details with
    | none => ⟨[], none, []⟩
    | some d =>
      let newAchievements := newlyAchieved token d
      let records := newAchievements.map (fun r =>
        { token_address := token.address, multiplier := r,
          price_at_achievement := d.price,
          market_cap_at_achievement := d.marketCap : AchievementRecord })
      if 0 < newAchievements.length then
        let updatedAchievements :=
          (token.achievements ++ newAchievements).mergeSort (fun a b => decide (a ≤ b))
        ⟨records, some (updatedAchievements, d.price, d.marketCap),
         [(newAchievements.max?).getD 0]⟩
      else
        ⟨records, none, []⟩

/-! ## Notification Sink (src/services/telegram.service.ts, splitMessage)

`splitMessage` manipulates the message text character by character, so the
text is modelled as `List Char`. -/

/-- A sample `monitored_tokens` row; the arguments vary the fields the
theorems care about. -/
def mkRow (address : String) (createdAt : ℤ) (achievements : List ℚ)
    (initialMarketCap : ℚ) : TokenData :=
  { address := address, pair_address := "pair", symbol := "SYM", name := "Name",
    initial_price := 1, initial_market_cap := initialMarketCap,
    dev_wallet := "dev", achievements := achievements, last_price := 1,
    last_market_cap := initialMarketCap, created_at := createdAt, last_updated := 0 }

/-- A sample DexScreener pair; the arguments vary the fields the theorems
care about. -/
def mkPair (address pairAddress : String) (liquidity : Option ℚ)
    (marketCap fdv : Option ℚ) (createdAt : Option ℤ) : Token :=
  { pairAddress := pairAddress,
    baseToken := { address := address, name := "Name", symbol := "SYM",
                   ownerAddress := none },
    quoteAddress := "quote", quoteSymbol := "SOL", priceUsd := 2,
    liquidityUsd := liquidity, volumeH24 := none, marketCap := marketCap,
    fdv := fdv, pairCreatedAt := createdAt, url := "https://x" }

/-- A sample current-details snapshot with the given market cap. -/
def mkDetails (address : String) (marketCap : ℚ) : TokenDetails :=
  { address := address, name := "Name", symbol := "SYM", price := 2,
    marketCap := marketCap, liquidity := 0, volume24h := 0,
    pairAddress := "pair", createdAt := 0, url := "https://x" }

/-- Three sample pairs, for exercising the batch chunking of
`bulkInsertTokens`. -/
def demoTokens : List Token :=
  [mkPair "a1" "p1" (some 50) none none (some 1),
   mkPair "a2" "p2" (some 50) none none (some 1),
   mkPair "a3" "p3" (some 50) none none (some 1)]

/-- A sample developer wallet with `n` distinct created tokens and a
stored neutral reputation. -/
def demoWallet (n : ℕ) : DevWalletData :=
  { address := "wallet", tokens_created := (List.range n).map toString,
    total_tokens := n, is_blacklisted := false, reputation_score := some 50 }

/-! # Theorems -/

/-! ## C9 — retention cleanup -/

/-- Claim C9: for every retention cutoff, `cleanup` deletes exactly the
rows whose creation timestamp is strictly older than the cutoff and whose
achievements array is empty; a row with at least one achievement is never
deleted, regardless of its age. -/
theorem cleanup_deletes_exactly (cutoff : ℤ) (store : List TokenData)
    (t : TokenData) (ht : t ∈ store) :
    (t ∉ cleanup cutoff store ↔ (t.created_at < cutoff ∧ t.achievements = [])) ∧
    (t.achievements ≠ [] → t ∈ cleanup cutoff store) := by
  constructor
  · by_cases hlt : t.created_at < cutoff <;> by_cases he : t.achievements = [] <;>
      simp [cleanup, List.mem_filter, ht, hlt, he]
  · intro hach
    simp [cleanup, List.mem_filter, ht, hach]

/-- Witness for C9: a 35-day-old row with no achievements is deleted by a
30-day cutoff, while a 90-day-old row with one achievement is retained. -/
theorem cleanup_deletes_exactly_witness :
    (mkRow "old" (-35) [] 100 ∉ cleanup (-30) [mkRow "old" (-35) [] 100] ↔
      ((mkRow "old" (-35) [] 100).created_at < -30 ∧
       (mkRow "old" (-35) [] 100).achievements = [])) ∧
    ((mkRow "kept" (-90) [2] 100).achievements ≠ [] →
      mkRow "kept" (-90) [2] 100 ∈ cleanup (-30) [mkRow "kept" (-90) [2] 100]) :=
  ⟨(cleanup_deletes_exactly (-30) [mkRow "old" (-35) [] 100]
      (mkRow "old" (-35) [] 100) (by simp)).1,
   (cleanup_deletes_exactly (-30) [mkRow "kept" (-90) [2] 100]
      (mkRow "kept" (-90) [2] 100) (by simp)).2⟩

/-! ## C5 — actor reputation sweep -/

/-- Counterexample for C5: a wallet with 36 created tokens makes the
`analyzeDevWallets` sweep compute and persist the score `-2`, which is
negative — the sweep's formula has no non-negative clamp. -/
theorem sweep_score_negative_counterexample :
    sweepWallet (demoWallet 36) true = some (-2) ∧ ¬(0 ≤ (-2 : ℤ)) := by
  constructor
  · rfl
  · decide

/-- Claim C5, amended: the score the `analyzeDevWallets` sweep persists for
a wallet equals the neutral baseline 50 minus a penalty of 2 per created
token above the threshold count 10, with NO non-negative clamp: the
persisted score is negative exactly when the wallet has more than 35
tokens.  (The clamped formula `max 0 (50 - 5·(n - 10))` exists only in the
attribution path `addTokenToDevWallet`.) -/
theorem sweep_score_unclamped (w : DevWalletData) (d : Bool) (s : ℤ)
    (h : sweepWallet w d = some s) :
    s = sweepReputationScore w.tokens_created.length ∧
    (10 < w.tokens_created.length →
      s = 50 - ((w.tokens_created.length : ℤ) - 10) * 2) ∧
    (s < 0 ↔ 35 < w.tokens_created.length) ∧
    (∀ n : ℕ, 0 ≤ attributionReputationScore n) := by
  have hs : s = sweepReputationScore w.tokens_created.length := by
    simp only [sweepWallet] at h
    split at h
    · simp at h
    · split at h
      · simp at h
      · split at h
        · exact (Option.some.inj h).symm
        · simp at h
  refine ⟨hs, ?_, ?_, fun n => le_max_left 0 _⟩
  · intro hn
    rw [hs]; unfold sweepReputationScore
    rw [if_pos hn]
  · rw [hs]; unfold sweepReputationScore
    split
    · constructor
      · intro hneg; omega
      · intro h35; omega
    · constructor
      · intro hneg; omega
      · intro h35; omega

/-- Witness for C5's amended theorem at the 36-token wallet: the persisted
score is `50 - 26·2 = -2 < 0`. -/
theorem sweep_score_unclamped_witness :
    (-2 : ℤ) = sweepReputationScore (demoWallet 36).tokens_created.length ∧
    (10 < (demoWallet 36).tokens_created.length →
      (-2 : ℤ) = 50 - (((demoWallet 36).tokens_created.length : ℤ) - 10) * 2) ∧
    ((-2 : ℤ) < 0 ↔ 35 < (demoWallet 36).tokens_created.length) ∧
    (∀ n : ℕ, 0 ≤ attributionReputationScore n) :=
  sweep_score_unclamped (demoWallet 36) true (-2) (by rfl)

/-! ## C1 — insertToken collision semantics -/

/-- After replacing every row bearing `row.address` by `row`, a lookup of
that address finds `row` (provided the address was present). -/
theorem find?_upsert_replace (store : List TokenData) (row : TokenData)
    (h : ∃ r ∈ store, r.address = row.address) :
    (store.map (fun r => if r.address = row.address then row else r)).find?
      (fun r => r.address = row.address) = some row := by
  induction store with
  | nil => simp at h
  | cons a l ih =>
    by_cases ha : a.address = row.address
    · simp [List.find?_cons, ha]
    · rcases h with ⟨r, hr, hra⟩
      rcases List.mem_cons.mp hr with rfl | hrl
      · exact absurd hra ha
      · simp only [List.map_cons, if_neg ha, List.find?_cons, decide_eq_false ha]
        exact ih ⟨r, hrl, hra⟩

/-- Counterexample for C1: a store holds address `a` with
`initial_market_cap = 100`; `insertToken` of a pair with the same base
address and market cap 200 leaves the stored `initial_market_cap` at 200,
not 100 — the collision does overwrite the `initial_*` fields
(`upsert` with `ignoreDuplicates: false` merges, i.e. updates, on
conflict). -/
theorem insertToken_overwrites_counterexample :
    (getTokenRow [mkRow "a" 0 [] 100] "a").map
      (fun r => r.initial_market_cap) = some 100 ∧
    (getTokenRow (insertToken 7 [mkRow "a" 0 [] 100]
        (mkPair "a" "pair2" (some 1000) (some 200) none (some 5))) "a").map
      (fun r => r.initial_market_cap) = some 200 ∧
    (100 : ℚ) ≠ 200 := by
  refine ⟨rfl, rfl, by norm_num⟩

/-- Claim C1, amended: an identity collision in `insertToken` (upsert with
`ignoreDuplicates: false`) overwrites the stored record wholesale with the
freshly converted payload — `initial_price` and `initial_market_cap` take
the incoming token's values and the achievements array resets to empty — so
initial valuation is NOT immutable under `insertToken`.  The claimed
preservation holds for the bulk path: an upsert with
`ignoreDuplicates: true` (as issued by `bulkInsertTokens`) leaves a
conflicting stored record, including its `initial_*` fields, unchanged. -/
theorem upsert_collision_semantics (now : ℤ) (store : List TokenData) (token : Token)
    (h : ∃ r ∈ store, r.address = (convertToTokenData now token).address) :
    getTokenRow (insertToken now store token) (convertToTokenData now token).address
      = some (convertToTokenData now token) ∧
    ∀ row : TokenData, (∃ r ∈ store, r.address = row.address) →
      upsertRow true store row = store := by
  have hany : ∀ row : TokenData, (∃ r ∈ store, r.address = row.address) →
      store.any (fun r => r.address = row.address) = true := by
    intro row hrow
    rw [List.any_eq_true]
    rcases hrow with ⟨r, hr, hra⟩
    exact ⟨r, hr, by simp [hra]⟩
  constructor
  · unfold insertToken upsertRow
    rw [if_pos (hany _ h), if_neg (by simp)]
    exact find?_upsert_replace store (convertToTokenData now token) h
  · intro row hrow
    unfold upsertRow
    rw [if_pos (hany _ hrow), if_pos rfl]

/-- Witness for C1's amended theorem: on the concrete collision of the
counterexample, `insertToken` stores exactly the converted incoming row,
while an `ignoreDuplicates: true` upsert leaves the store untouched. -/
theorem upsert_collision_semantics_witness :
    getTokenRow (insertToken 7 [mkRow "a" 0 [] 100]
        (mkPair "a" "pair2" (some 1000) (some 200) none (some 5)))
        (convertToTokenData 7 (mkPair "a" "pair2" (some 1000) (some 200) none (some 5))).address
      = some (convertToTokenData 7 (mkPair "a" "pair2" (some 1000) (some 200) none (some 5))) ∧
    upsertRow true [mkRow "a" 0 [] 100] (mkRow "a" 3 [] 55) = [mkRow "a" 0 [] 100] :=
  ⟨(upsert_collision_semantics 7 [mkRow "a" 0 [] 100]
      (mkPair "a" "pair2" (some 1000) (some 200) none (some 5)) (by decide)).1,
   (upsert_collision_semantics 7 [mkRow "a" 0 [] 100]
      (mkPair "a" "pair2" (some 1000) (some 200) none (some 5)) (by decide)).2
     (mkRow "a" 3 [] 55) (by decide)⟩

/-! ## C6 — liquidity floor -/

/-- A pair whose observed liquidity (`liquidity?.usd || 0`) is below the
configured floor fails `isValidPair`. -/
theorem isValidPair_low_liquidity (minLiq : ℚ) (p : Token)
    (h : jsOrNum p.liquidityUsd 0 < minLiq) : isValidPair minLiq p = false := by
  unfold isValidPair
  split
  · rfl
  · split
    · rfl
    · split
      · rfl
      · simp [h]

/-- Any pair the `getInitialPairs` filter keeps beyond the accumulator
passed `isValidPair`. -/
theorem mem_initialPairs_fold (minLiq : ℚ) (lb : ℤ) (ps : List Token)
    (acc : DexState × List Token) (p : Token)
    (h : p ∈ (ps.foldl (initialPairsStep minLiq lb) acc).2) :
    p ∈ acc.2 ∨ isValidPair minLiq p = true := by
  induction ps generalizing acc with
  | nil => exact Or.inl h
  | cons q qs ih =>
    rw [List.foldl_cons] at h
    rcases ih _ h with hmem | hval
    · unfold initialPairsStep at hmem
      split at hmem
      · rename_i hq
        split at hmem
        · rcases List.mem_append.mp hmem with hmem | hmem
          · exact Or.inl hmem
          · rcases List.mem_singleton.mp hmem with rfl
            exact Or.inr hq
        · exact Or.inl hmem
      · exact Or.inl hmem
    · exact Or.inr hval

/-- Any pair the `getNewPairs` filter keeps beyond the accumulator passed
`isValidPair`. -/
theorem mem_newPairs_fold (minLiq : ℚ) (lastp : ℤ) (ps : List Token)
    (acc : DexState × List Token) (p : Token)
    (h : p ∈ (ps.foldl (newPairsStep minLiq lastp) acc).2) :
    p ∈ acc.2 ∨ isValidPair minLiq p = true := by
  induction ps generalizing acc with
  | nil => exact Or.inl h
  | cons q qs ih =>
    rw [List.foldl_cons] at h
    rcases ih _ h with hmem | hval
    · unfold newPairsStep at hmem
      split at hmem
      · exact Or.inl hmem
      · rename_i hq
        split at hmem
        · rcases List.mem_append.mp hmem with hmem | hmem
          · exact Or.inl hmem
          · rcases List.mem_singleton.mp hmem with rfl
            simp only [Bool.or_eq_true, Bool.not_eq_true', not_or] at hq
            exact Or.inr (eq_true_of_ne_false hq.1)
        · exact Or.inl hmem
    · exact Or.inr hval

/-- Any address the `getInitialPairs` filter adds to the seen-set beyond
the accumulator's belongs to a pair of the input that passed
`isValidPair`. -/
theorem seen_initialPairs_fold (minLiq : ℚ) (lb : ℤ) (ps : List Token)
    (acc : DexState × List Token) (a : String)
    (h : a ∈ (ps.foldl (initialPairsStep minLiq lb) acc).1.seenPairs) :
    a ∈ acc.1.seenPairs ∨ ∃ q ∈ ps, q.pairAddress = a ∧ isValidPair minLiq q = true := by
  induction ps generalizing acc with
  | nil => exact Or.inl h
  | cons q qs ih =>
    rw [List.foldl_cons] at h
    rcases ih _ h with hmem | ⟨r, hr, hra, hrv⟩
    · unfold initialPairsStep at hmem
      split at hmem
      · rename_i hq
        split at hmem
        · rcases List.mem_append.mp hmem with hmem | hmem
          · exact Or.inl hmem
          · rcases List.mem_singleton.mp hmem with rfl
            exact Or.inr ⟨q, List.mem_cons_self .., rfl, hq⟩
        · exact Or.inl hmem
      · exact Or.inl hmem
    · exact Or.inr ⟨r, List.mem_cons_of_mem _ hr, hra, hrv⟩

/-- Any address the `getNewPairs` filter adds to the seen-set beyond the
accumulator's belongs to a pair of the input that passed `isValidPair`. -/
theorem seen_newPairs_fold (minLiq : ℚ) (lastp : ℤ) (ps : List Token)
    (acc : DexState × List Token) (a : String)
    (h : a ∈ (ps.foldl (newPairsStep minLiq lastp) acc).1.seenPairs) :
    a ∈ acc.1.seenPairs ∨ ∃ q ∈ ps, q.pairAddress = a ∧ isValidPair minLiq q = true := by
  induction ps generalizing acc with
  | nil => exact Or.inl h
  | cons q qs ih =>
    rw [List.foldl_cons] at h
    rcases ih _ h with hmem | ⟨r, hr, hra, hrv⟩
    · unfold newPairsStep at hmem
      split at hmem
      · exact Or.inl hmem
      · rename_i hq
        split at hmem
        · rcases List.mem_append.mp hmem with hmem | hmem
          · exact Or.inl hmem
          · rcases List.mem_singleton.mp hmem with rfl
            simp only [Bool.or_eq_true, Bool.not_eq_true', not_or] at hq
            exact Or.inr ⟨q, List.mem_cons_self .., rfl, eq_true_of_ne_false hq.1⟩
        · exact Or.inl hmem
    · exact Or.inr ⟨r, List.mem_cons_of_mem _ hr, hra, hrv⟩

/-- The seen-set of the state `getNewPairs` leaves behind is the one its
filter built (the trailing high-water-mark update does not touch it). -/
theorem getNewPairs_seen (minLiq : ℚ) (now : ℤ) (s : DexState) (ps : List Token) :
    (getNewPairs minLiq now s ps).1.seenPairs =
      (ps.foldl (newPairsStep minLiq s.lastProcessedTimestamp) (s, [])).1.seenPairs := by
  simp only [getNewPairs]
  split <;> rfl

/-- Any address in the seen-set after one fetch call was either there
before or belongs to a pair of that call's input that passed
`isValidPair`. -/
theorem seen_runFetch (minLiq : ℚ) (s : DexState) (c : FetchCall) (a : String)
    (h : a ∈ (runFetch minLiq s c).1.seenPairs) :
    a ∈ s.seenPairs ∨
      ∃ q ∈ c.pairs, q.pairAddress = a ∧ isValidPair minLiq q = true := by
  cases c with
  | initial ps => exact seen_initialPairs_fold minLiq _ ps (s, []) a h
  | incremental now ps =>
    rw [runFetch, getNewPairs_seen] at h
    exact seen_newPairs_fold minLiq _ ps (s, []) a h

/-- Claim C6: a candidate pair whose observed liquidity is below the
configured floor is never included in the sequence returned by
`getInitialPairs` or `getNewPairs`, and across arbitrarily many fetch
calls an address carried only by sub-floor pairs never enters the
seen-set. -/
theorem low_liquidity_never_returned_never_seen (minLiq : ℚ) (p : Token)
    (hliq : jsOrNum p.liquidityUsd 0 < minLiq) :
    (∀ s ps, p ∉ (getInitialPairs minLiq s ps).2) ∧
    (∀ s now ps, p ∉ (getNewPairs minLiq now s ps).2) ∧
    (∀ s cs a,
      (∀ c ∈ cs, ∀ q ∈ FetchCall.pairs c, q.pairAddress = a →
        jsOrNum q.liquidityUsd 0 < minLiq) →
      a ∉ s.seenPairs → a ∉ (runFetches minLiq s cs).seenPairs) := by
  have hval : isValidPair minLiq p = false := isValidPair_low_liquidity minLiq p hliq
  refine ⟨?_, ?_, ?_⟩
  · intro s ps hmem
    rcases mem_initialPairs_fold minLiq _ ps (s, []) p hmem with h | h
    · exact absurd h (List.not_mem_nil p)
    · rw [hval] at h; exact Bool.false_ne_true h
  · intro s now ps hmem
    have hmem' : p ∈ (ps.foldl (newPairsStep minLiq s.lastProcessedTimestamp) (s, [])).2 := by
      simp only [getNewPairs] at hmem
      split at hmem
      · exact hmem
      · exact hmem
    rcases mem_newPairs_fold minLiq _ ps (s, []) p hmem' with h | h
    · exact absurd h (List.not_mem_nil p)
    · rw [hval] at h; exact Bool.false_ne_true h
  · intro s cs a hlow hnot
    induction cs generalizing s with
    | nil => exact hnot
    | cons c cs ih =>
      refine ih (runFetch minLiq s c).1 (fun c' hc' => hlow c' (List.mem_cons_of_mem _ hc')) ?_
      intro hseen
      rcases seen_runFetch minLiq s c a hseen with h | ⟨q, hq, hqa, hqv⟩
      · exact hnot h
      · have : isValidPair minLiq q = false :=
          isValidPair_low_liquidity minLiq q (hlow c (List.mem_cons_self ..) q hq hqa)
        rw [this] at hqv; exact Bool.false_ne_true hqv

/-- Witness for C6 on a concrete sub-floor pair (liquidity 5 against a
floor of 10): not returned by either fetch, and its address never enters
the seen-set over a two-call history whose inputs carry only that pair. -/
theorem low_liquidity_never_returned_never_seen_witness :
    (mkPair "lowtok" "lowpair" (some 5) (some 100) none (some 5)) ∉
      (getInitialPairs 10 ⟨[], 0⟩
        [mkPair "lowtok" "lowpair" (some 5) (some 100) none (some 5)]).2 ∧
    (mkPair "lowtok" "lowpair" (some 5) (some 100) none (some 5)) ∉
      (getNewPairs 10 99 ⟨[], 0⟩
        [mkPair "lowtok" "lowpair" (some 5) (some 100) none (some 5)]).2 ∧
    "lowpair" ∉ (runFetches 10 ⟨[], 0⟩
      [.initial [mkPair "lowtok" "lowpair" (some 5) (some 100) none (some 5)],
       .incremental 99 [mkPair "lowtok" "lowpair" (some 5) (some 100) none (some 5)]]).seenPairs := by
  have h := low_liquidity_never_returned_never_seen 10
    (mkPair "lowtok" "lowpair" (some 5) (some 100) none (some 5)) (by decide)
  exact ⟨h.1 ⟨[], 0⟩ _, h.2.1 ⟨[], 0⟩ 99 _,
    h.2.2 ⟨[], 0⟩ _ "lowpair" (by decide) (by decide)⟩

/-! ## C7 — no re-delivery of a returned pair -/

/-- The sequence returned by `getNewPairs` is the one its filter built. -/
theorem getNewPairs_out (minLiq : ℚ) (now : ℤ) (s : DexState) (ps : List Token) :
    (getNewPairs minLiq now s ps).2 =
      (ps.foldl (newPairsStep minLiq s.lastProcessedTimestamp) (s, [])).2 := by
  simp only [getNewPairs]
  split <;> rfl

/-- One `getInitialPairs` filter step never removes a seen address. -/
theorem initialPairsStep_seen_mono (minLiq : ℚ) (lb : ℤ)
    (acc : DexState × List Token) (q : Token) (a : String)
    (h : a ∈ acc.1.seenPairs) :
    a ∈ (initialPairsStep minLiq lb acc q).1.seenPairs := by
  unfold initialPairsStep
  split
  · split
    · exact List.mem_append.mpr (Or.inl h)
    · exact h
  · exact h

/-- One `getNewPairs` filter step never removes a seen address. -/
theorem newPairsStep_seen_mono (minLiq : ℚ) (lastp : ℤ)
    (acc : DexState × List Token) (q : Token) (a : String)
    (h : a ∈ acc.1.seenPairs) :
    a ∈ (newPairsStep minLiq lastp acc q).1.seenPairs := by
  unfold newPairsStep
  split
  · exact h
  · split
    · exact List.mem_append.mpr (Or.inl h)
    · exact h

/-- The `getInitialPairs` filter only grows the seen-set. -/
theorem seen_mono_initialPairs_fold (minLiq : ℚ) (lb : ℤ) (ps : List Token)
    (acc : DexState × List Token) (a : String) (h : a ∈ acc.1.seenPairs) :
    a ∈ (ps.foldl (initialPairsStep minLiq lb) acc).1.seenPairs := by
  induction ps generalizing acc with
  | nil => exact h
  | cons q qs ih =>
    rw [List.foldl_cons]
    exact ih _ (initialPairsStep_seen_mono minLiq lb acc q a h)

/-- The `getNewPairs` filter only grows the seen-set. -/
theorem seen_mono_newPairs_fold (minLiq : ℚ) (lastp : ℤ) (ps : List Token)
    (acc : DexState × List Token) (a : String) (h : a ∈ acc.1.seenPairs) :
    a ∈ (ps.foldl (newPairsStep minLiq lastp) acc).1.seenPairs := by
  induction ps generalizing acc with
  | nil => exact h
  | cons q qs ih =>
    rw [List.foldl_cons]
    exact ih _ (newPairsStep_seen_mono minLiq lastp acc q a h)

/-- A fetch call only grows the seen-set. -/
theorem seen_mono_runFetch (minLiq : ℚ) (s : DexState) (c : FetchCall) (a : String)
    (h : a ∈ s.seenPairs) : a ∈ (runFetch minLiq s c).1.seenPairs := by
  cases c with
  | initial ps => exact seen_mono_initialPairs_fold minLiq _ ps (s, []) a h
  | incremental now ps =>
    rw [runFetch, getNewPairs_seen]
    exact seen_mono_newPairs_fold minLiq _ ps (s, []) a h

/-- A sequence of fetch calls only grows the seen-set. -/
theorem seen_mono_runFetches (minLiq : ℚ) (s : DexState) (cs : List FetchCall)
    (a : String) (h : a ∈ s.seenPairs) : a ∈ (runFetches minLiq s cs).seenPairs := by
  induction cs generalizing s with
  | nil => exact h
  | cons c cs ih => exact ih _ (seen_mono_runFetch minLiq s c a h)

/-- When the `getNewPairs` filter step keeps a pair, its address is in the
seen-set from that point on. -/
theorem seen_mono_newPairsStep_fold_aux (minLiq : ℚ) (lastp : ℤ) (qs : List Token)
    (acc : DexState × List Token) (p : Token)
    (hskip : ¬((!isValidPair minLiq p ||
      acc.1.seenPairs.contains p.pairAddress) = true))
    (htime : lastp < p.pairCreatedAt.getD 0) :
    p.pairAddress ∈
      (qs.foldl (newPairsStep minLiq lastp) (newPairsStep minLiq lastp acc p)).1.seenPairs := by
  refine seen_mono_newPairs_fold minLiq lastp qs _ _ ?_
  have hstep : (newPairsStep minLiq lastp acc p).1.seenPairs
      = acc.1.seenPairs ++ [p.pairAddress] := by
    unfold newPairsStep
    rw [if_neg hskip, if_pos htime]
  rw [hstep]
  exact List.mem_append.mpr (Or.inr (List.mem_singleton.mpr rfl))

/-- Every pair the `getNewPairs` filter keeps beyond the accumulator has
its address in the resulting seen-set. -/
theorem mem_newPairs_fold_seen (minLiq : ℚ) (lastp : ℤ) (ps : List Token)
    (acc : DexState × List Token) (p : Token)
    (h : p ∈ (ps.foldl (newPairsStep minLiq lastp) acc).2) :
    p ∈ acc.2 ∨ p.pairAddress ∈ (ps.foldl (newPairsStep minLiq lastp) acc).1.seenPairs := by
  induction ps generalizing acc with
  | nil => exact Or.inl h
  | cons q qs ih =>
    rw [List.foldl_cons] at h ⊢
    rcases ih _ h with hmem | hseen
    · unfold newPairsStep at hmem
      split at hmem
      · exact Or.inl hmem
      · rename_i hskip
        split at hmem
        · rename_i htime
          rcases List.mem_append.mp hmem with hmem | hmem
          · exact Or.inl hmem
          · rcases List.mem_singleton.mp hmem with rfl
            refine Or.inr (seen_mono_newPairsStep_fold_aux minLiq lastp qs acc p hskip htime)
        · exact Or.inl hmem
    · exact Or.inr hseen

/-- A pair whose address is already in the seen-set is never kept by the
`getNewPairs` filter. -/
theorem seen_blocks_newPairs_fold (minLiq : ℚ) (lastp : ℤ) (ps : List Token)
    (acc : DexState × List Token) (p : Token)
    (hseen : p.pairAddress ∈ acc.1.seenPairs)
    (h : p ∈ (ps.foldl (newPairsStep minLiq lastp) acc).2) : p ∈ acc.2 := by
  induction ps generalizing acc with
  | nil => exact h
  | cons q qs ih =>
    rw [List.foldl_cons] at h
    have hstep := ih (newPairsStep minLiq lastp acc q)
      (newPairsStep_seen_mono minLiq lastp acc q _ hseen) h
    unfold newPairsStep at hstep
    split at hstep
    · exact hstep
    · rename_i hq
      split at hstep
      · rcases List.mem_append.mp hstep with hstep | hstep
        · exact hstep
        · rcases List.mem_singleton.mp hstep with rfl
          simp at hq
          exact absurd hseen hq.2
      · exact hstep

/-- Claim C7: a pair included in the result of one `getNewPairs` call is
never returned by a later `getNewPairs` call in the same process lifetime,
whatever fetch calls happen in between — the seen-set suppresses
re-delivery. -/
theorem returned_pair_never_redelivered (minLiq : ℚ) (s : DexState)
    (ps : List Token) (now : ℤ) (p : Token)
    (h : p ∈ (getNewPairs minLiq now s ps).2) :
    ∀ cs now' ps',
      p ∉ (getNewPairs minLiq now'
        (runFetches minLiq (getNewPairs minLiq now s ps).1 cs) ps').2 := by
  intro cs now' ps' hmem
  have hseen1 : p.pairAddress ∈ (getNewPairs minLiq now s ps).1.seenPairs := by
    rw [getNewPairs_out] at h
    rcases mem_newPairs_fold_seen minLiq _ ps (s, []) p h with h0 | hs
    · exact absurd h0 (List.not_mem_nil p)
    · rw [getNewPairs_seen]; exact hs
  have hseen2 : p.pairAddress ∈
      (runFetches minLiq (getNewPairs minLiq now s ps).1 cs).seenPairs :=
    seen_mono_runFetches minLiq _ cs _ hseen1
  rw [getNewPairs_out] at hmem
  exact absurd (seen_blocks_newPairs_fold minLiq _ ps' _ p hseen2 hmem)
    (List.not_mem_nil p)

/-- Witness for C7: a concrete valid pair returned by one `getNewPairs`
call is absent from the result of a later call over the same source and
high-water mark (with one intervening incremental call). -/
theorem returned_pair_never_redelivered_witness :
    mkPair "tok" "pp" (some 1000) (some 100) none (some 5) ∉
      (getNewPairs 10 99
        (runFetches 10
          (getNewPairs 10 7 ⟨[], 0⟩
            [mkPair "tok" "pp" (some 1000) (some 100) none (some 5)]).1
          [.incremental 50 [mkPair "tok" "pp" (some 1000) (some 100) none (some 5)]])
        [mkPair "tok" "pp" (some 1000) (some 100) none (some 5)]).2 :=
  returned_pair_never_redelivered 10 ⟨[], 0⟩
    [mkPair "tok" "pp" (some 1000) (some 100) none (some 5)] 7
    (mkPair "tok" "pp" (some 1000) (some 100) none (some 5)) (by decide)
    [.incremental 50 [mkPair "tok" "pp" (some 1000) (some 100) none (some 5)]] 99
    [mkPair "tok" "pp" (some 1000) (some 100) none (some 5)]

/-! ## Milestone check: shared lemmas -/

/-- The boolean `≤` used to model `.sort((a, b) => a - b)` is transitive. -/
theorem leBool_trans : ∀ a b c : ℚ, (decide (a ≤ b)) = true →
    (decide (b ≤ c)) = true → (decide (a ≤ c)) = true := by
  intro a b c hab hbc
  simp only [decide_eq_true_eq] at *
  exact le_trans hab hbc

/-- The boolean `≤` used to model `.sort((a, b) => a - b)` is total. -/
theorem leBool_total : ∀ a b : ℚ, (decide (a ≤ b) || decide (b ≤ a)) = true := by
  intro a b
  simp only [Bool.or_eq_true, decide_eq_true_eq]
  exact le_total a b

unseal Rat.ofScientific in
/-- The milestone ladder has no duplicate rungs. -/
theorem achievement_multipliers_nodup : ACHIEVEMENT_MULTIPLIERS.Nodup := by decide

/-- `ACHIEVEMENT_MULTIPLIERS[ACHIEVEMENT_MULTIPLIERS.length - 1]` is the
top-of-ladder rung, 100. -/
theorem achievement_multipliers_top : ACHIEVEMENT_MULTIPLIERS.getLastD 0 = 100 := rfl

/-- A non-empty list of rationals has a maximum that belongs to it and
bounds it (`Math.max(...list)`). -/
theorem max?_spec (l : List ℚ) (hl : l ≠ []) :
    ∃ m, l.max? = some m ∧ m ∈ l ∧ ∀ b ∈ l, b ≤ m := by
  cases hm : l.max? with
  | none => exact absurd (List.max?_eq_none_iff.mp hm) hl
  | some m =>
    refine ⟨m, rfl, List.max?_mem max_choice hm, ?_⟩
    exact (List.max?_le_iff (fun a b c => max_le_iff) hm).mp (le_refl m)

/-- Evaluation of `checkOneToken` on a processed (non-skipped) token with
available details and at least one newly-achieved rung. -/
theorem checkOneToken_eq (token : TokenData) (d : TokenDetails)
    (hskip : token.achievements.contains (ACHIEVEMENT_MULTIPLIERS.getLastD 0) = false)
    (hlen : 0 < (newlyAchieved token d).length) :
    checkOneToken token (some d) =
      ⟨(newlyAchieved token d).map (fun r =>
          { token_address := token.address, multiplier := r,
            price_at_achievement := d.price,
            market_cap_at_achievement := d.marketCap }),
        some ((token.achievements ++ newlyAchieved token d).mergeSort
          (fun a b => decide (a ≤ b)), d.price, d.marketCap),
        [((newlyAchieved token d).max?).getD 0]⟩ := by
  unfold checkOneToken
  rw [if_neg (by rw [hskip]; simp)]
  dsimp only
  rw [if_pos hlen]

/-! ## C2 — one notification, one record per rung -/

/-- Claim C2: for a processed token whose valuation multiplier newly
reaches `k ≥ 1` ladder rungs not yet in its achieved-set, exactly one
achievement notification is sent, carrying the highest newly-achieved
rung, and exactly one `recordAchievement` call is issued per newly
achieved rung (`k` records, one per rung, in ladder order). -/
theorem milestone_one_alert_per_rung_records (token : TokenData) (d : TokenDetails)
    (hskip : token.achievements.contains (ACHIEVEMENT_MULTIPLIERS.getLastD 0) = false)
    (hnew : newlyAchieved token d ≠ []) :
    ((checkOneToken token (some d)).records.map (fun r => r.multiplier)
        = newlyAchieved token d) ∧
    (checkOneToken token (some d)).records.length = (newlyAchieved token d).length ∧
    ∃ m, (checkOneToken token (some d)).alerts = [m] ∧ m ∈ newlyAchieved token d ∧
      ∀ r ∈ newlyAchieved token d, r ≤ m := by
  have hlen : 0 < (newlyAchieved token d).length := List.length_pos.mpr hnew
  rw [checkOneToken_eq token d hskip hlen]
  obtain ⟨m, hm, hmem, hbound⟩ := max?_spec (newlyAchieved token d) hnew
  refine ⟨?_, by simp, ⟨m, by simp [hm], hmem, hbound⟩⟩
  have hcomp : ((fun (r : AchievementRecord) => r.multiplier) ∘ (fun r =>
      ({ token_address := token.address, multiplier := r,
         price_at_achievement := d.price,
         market_cap_at_achievement := d.marketCap } : AchievementRecord)))
      = fun x => x := rfl
  show ((newlyAchieved token d).map _).map _ = newlyAchieved token d
  rw [List.map_map, hcomp, List.map_id']

unseal Rat.ofScientific Rat.mul Rat.inv in
/-- Witness for C2: the spec's own end-to-end example — initial valuation
100000, current valuation 550000, so the multiplier 5.5 newly clears the
eleven rungs up to 5; one alert (for 5), eleven records. -/
theorem milestone_one_alert_per_rung_records_witness :
    ((checkOneToken (mkRow "t" 0 [] 100000) (some (mkDetails "t" 550000))).records.map
        (fun r => r.multiplier)
      = newlyAchieved (mkRow "t" 0 [] 100000) (mkDetails "t" 550000)) ∧
    (checkOneToken (mkRow "t" 0 [] 100000) (some (mkDetails "t" 550000))).records.length
      = (newlyAchieved (mkRow "t" 0 [] 100000) (mkDetails "t" 550000)).length ∧
    ∃ m, (checkOneToken (mkRow "t" 0 [] 100000) (some (mkDetails "t" 550000))).alerts = [m] ∧
      m ∈ newlyAchieved (mkRow "t" 0 [] 100000) (mkDetails "t" 550000) ∧
      ∀ r ∈ newlyAchieved (mkRow "t" 0 [] 100000) (mkDetails "t" 550000), r ≤ m :=
  milestone_one_alert_per_rung_records (mkRow "t" 0 [] 100000)
    (mkDetails "t" 550000) (by decide) (by decide)

/-! ## C3 — achieved-set write invariant -/

/-- Claim C3: whenever a run of the achievement check writes an
achieved-set back (the `updateTokenAchievements` payload), the written set
is a superset of the previous achieved-set, has no duplicates, is sorted
strictly ascending, and all its values are ladder rungs — provided the
previous set satisfied the (inductively maintained) no-duplicates and
ladder-membership invariants. -/
theorem achievements_write_invariant (token : TokenData) (d : TokenDetails)
    (A : List ℚ) (pr mc : ℚ)
    (hnd : token.achievements.Nodup)
    (hsub : ∀ x ∈ token.achievements, x ∈ ACHIEVEMENT_MULTIPLIERS)
    (hupd : (checkOneToken token (some d)).update = some (A, pr, mc)) :
    (∀ x ∈ token.achievements, x ∈ A) ∧ A.Nodup ∧ A.Sorted (· < ·) ∧
    ∀ x ∈ A, x ∈ ACHIEVEMENT_MULTIPLIERS := by
  have hA : A = (token.achievements ++ newlyAchieved token d).mergeSort
      (fun a b => decide (a ≤ b)) := by
    simp only [checkOneToken] at hupd
    split at hupd
    · simp at hupd
    · split at hupd
      · simp only [Option.some.injEq, Prod.mk.injEq] at hupd
        exact hupd.1.symm
      · simp at hupd
  have hperm := List.mergeSort_perm (token.achievements ++ newlyAchieved token d)
    (fun a b => decide (a ≤ b))
  rw [hA]
  have hnd_new : (newlyAchieved token d).Nodup :=
    List.Nodup.filter _ achievement_multipliers_nodup
  have hdisj : token.achievements.Disjoint (newlyAchieved token d) := by
    intro a ha hmem
    have h2 := (List.mem_filter.mp hmem).2
    simp at h2
    exact h2.2 ha
  have hnodup : ((token.achievements ++ newlyAchieved token d).mergeSort
      (fun a b => decide (a ≤ b))).Nodup :=
    hperm.nodup_iff.mpr (List.Nodup.append hnd hnd_new hdisj)
  refine ⟨?_, hnodup, ?_, ?_⟩
  · intro x hx
    exact hperm.mem_iff.mpr (List.mem_append.mpr (Or.inl hx))
  · have hle := List.sorted_mergeSort leBool_trans leBool_total
      (token.achievements ++ newlyAchieved token d)
    have hle' : ((token.achievements ++ newlyAchieved token d).mergeSort
        (fun a b => decide (a ≤ b))).Pairwise (· ≤ ·) :=
      hle.imp (fun h => of_decide_eq_true h)
    exact (hle'.and hnodup).imp (fun h => lt_of_le_of_ne h.1 h.2)
  · intro x hx
    rcases List.mem_append.mp (hperm.mem_iff.mp hx) with h | h
    · exact hsub x h
    · exact (List.mem_filter.mp h).1

unseal Rat.ofScientific Rat.mul Rat.inv in
/-- Witness for C3: a token with achieved-set `[2]` and multiplier 5.5
(initial valuation 100000, current 550000) writes back the sorted merge of
`[2]` with the ten other newly cleared rungs — a sorted, duplicate-free
superset of `[2]` drawn from the ladder. -/
theorem achievements_write_invariant_witness :
    (∀ x ∈ (mkRow "t" 0 [2] 100000).achievements,
      x ∈ ((mkRow "t" 0 [2] 100000).achievements ++
        newlyAchieved (mkRow "t" 0 [2] 100000) (mkDetails "t" 550000)).mergeSort
          (fun a b => decide (a ≤ b))) ∧
    (((mkRow "t" 0 [2] 100000).achievements ++
      newlyAchieved (mkRow "t" 0 [2] 100000) (mkDetails "t" 550000)).mergeSort
        (fun a b => decide (a ≤ b))).Nodup ∧
    (((mkRow "t" 0 [2] 100000).achievements ++
      newlyAchieved (mkRow "t" 0 [2] 100000) (mkDetails "t" 550000)).mergeSort
        (fun a b => decide (a ≤ b))).Sorted (· < ·) ∧
    ∀ x ∈ ((mkRow "t" 0 [2] 100000).achievements ++
      newlyAchieved (mkRow "t" 0 [2] 100000) (mkDetails "t" 550000)).mergeSort
        (fun a b => decide (a ≤ b)), x ∈ ACHIEVEMENT_MULTIPLIERS :=
  achievements_write_invariant (mkRow "t" 0 [2] 100000) (mkDetails "t" 550000)
    (((mkRow "t" 0 [2] 100000).achievements ++
      newlyAchieved (mkRow "t" 0 [2] 100000) (mkDetails "t" 550000)).mergeSort
        (fun a b => decide (a ≤ b))) 2 550000
    (by decide) (by decide)
    (by rw [checkOneToken_eq (mkRow "t" 0 [2] 100000) (mkDetails "t" 550000)
          (by decide) (by decide)]; rfl)

/-! ## C10 — unguarded division by a zero initial valuation -/

unseal Rat.ofScientific in
/-- Claim C10 (implicit): `convertToTokenData` defaults
`initial_market_cap` to 0 when both `marketCap` and `fdv` are absent; for
a stored token with `initial_market_cap = 0` and a positive current market
cap, the achievement check's unguarded division yields `+Infinity`, so in
that single check every ladder rung not yet in the achieved-set is
recorded as achieved, and the (single) alert is sent. -/
theorem zero_initial_valuation_awards_every_rung (t : Token) (now : ℤ)
    (token : TokenData) (d : TokenDetails)
    (hmc : t.marketCap = none) (hfdv : t.fdv = none)
    (hz : token.initial_market_cap = 0) (hpos : 0 < d.marketCap)
    (hskip : token.achievements.contains (ACHIEVEMENT_MULTIPLIERS.getLastD 0) = false) :
    (convertToTokenData now t).initial_market_cap = 0 ∧
    jsDiv d.marketCap token.initial_market_cap = NumV.inf ∧
    ((checkOneToken token (some d)).records.map (fun r => r.multiplier)
      = ACHIEVEMENT_MULTIPLIERS.filter (fun r => !token.achievements.contains r)) ∧
    (checkOneToken token (some d)).alerts.length = 1 := by
  have hdiv : jsDiv d.marketCap token.initial_market_cap = NumV.inf := by
    unfold jsDiv
    rw [hz]
    rw [if_neg (by simp), if_pos hpos]
  have hfilter : newlyAchieved token d =
      ACHIEVEMENT_MULTIPLIERS.filter (fun r => !token.achievements.contains r) := by
    unfold newlyAchieved
    refine List.filter_congr ?_
    intro r _
    rw [hdiv]
    rfl
  have htop : (100 : ℚ) ∈ newlyAchieved token d := by
    rw [hfilter]
    refine List.mem_filter.mpr ⟨by decide, ?_⟩
    rw [achievement_multipliers_top] at hskip
    simpa using hskip
  have hnew : newlyAchieved token d ≠ [] := by
    intro hnil
    rw [hnil] at htop
    exact List.not_mem_nil _ htop
  have hlen : 0 < (newlyAchieved token d).length := List.length_pos.mpr hnew
  refine ⟨by simp [convertToTokenData, hmc, hfdv, jsOrNum], hdiv, ?_, ?_⟩
  · rw [checkOneToken_eq token d hskip hlen, ← hfilter]
    have hcomp : ((fun (r : AchievementRecord) => r.multiplier) ∘ (fun r =>
        ({ token_address := token.address, multiplier := r,
           price_at_achievement := d.price,
           market_cap_at_achievement := d.marketCap } : AchievementRecord)))
        = fun x => x := rfl
    show ((newlyAchieved token d).map _).map _ = newlyAchieved token d
    rw [List.map_map, hcomp, List.map_id']
  · rw [checkOneToken_eq token d hskip hlen]
    rfl

/-- Witness for C10: a pair with neither `marketCap` nor `fdv` converts to
`initial_market_cap = 0`; a stored row with that zero initial valuation,
prior achieved-set `[2]` and current market cap 550000 has every other
rung newly achieved and one alert sent. -/
theorem zero_initial_valuation_awards_every_rung_witness :
    (convertToTokenData 7 (mkPair "z" "zp" (some 1000) none none (some 5))).initial_market_cap = 0 ∧
    jsDiv (mkDetails "z" 550000).marketCap (mkRow "z" 0 [2] 0).initial_market_cap = NumV.inf ∧
    ((checkOneToken (mkRow "z" 0 [2] 0) (some (mkDetails "z" 550000))).records.map
        (fun r => r.multiplier)
      = ACHIEVEMENT_MULTIPLIERS.filter
          (fun r => !(mkRow "z" 0 [2] 0).achievements.contains r)) ∧
    (checkOneToken (mkRow "z" 0 [2] 0) (some (mkDetails "z" 550000))).alerts.length = 1 :=
  zero_initial_valuation_awards_every_rung
    (mkPair "z" "zp" (some 1000) none none (some 5)) 7 (mkRow "z" 0 [2] 0)
    (mkDetails "z" 550000) rfl rfl rfl (by decide) (by decide)

/-! ## C8 — bulk insert batching -/

/-- The effective batch size (`batchSize || 50`) is positive. -/
theorem effBatchSize_pos (cfg : ℕ) : 0 < effBatchSize cfg := by
  unfold effBatchSize
  split <;> omega

/-- Ceiling-division recurrence: for positive `N`, one batch of size `B`
plus the batches of the remaining `N - B` items make `⌈N / B⌉` batches. -/
theorem ceil_div_succ (N B : ℕ) (hB : 0 < B) (hN : 0 < N) :
    (N + B - 1) / B = (N - B + B - 1) / B + 1 := by
  rcases le_or_lt B N with h | h
  · have h1 : N - B + B - 1 = N - 1 := by omega
    rw [h1, show N + B - 1 = N - 1 + B by omega, Nat.add_div_right _ hB]
  · have h1 : N - B = 0 := by omega
    rw [h1]
    have hr : (0 + B - 1) / B = 0 := Nat.div_eq_of_lt (by omega)
    rw [hr]
    exact Nat.div_eq_of_lt_le (by omega) (by omega)

/-- `chunkList` cuts a list of `N` elements into `⌈N / B⌉` chunks. -/
theorem chunkList_length {α : Type} (B : ℕ) (hB : 0 < B) (l : List α) :
    (chunkList B hB l).length = (l.length + B - 1) / B := by
  suffices H : ∀ n (l : List α), l.length ≤ n →
      (chunkList B hB l).length = (l.length + B - 1) / B from H l.length l le_rfl
  intro n
  induction n with
  | zero =>
    intro l hl
    rw [List.eq_nil_of_length_eq_zero (Nat.le_zero.mp hl)]
    rw [chunkList]
    simp only [List.length_nil, Nat.zero_add]
    exact (Nat.div_eq_of_lt (by omega)).symm
  | succ n ih =>
    intro l hl
    cases l with
    | nil =>
      rw [chunkList]
      simp only [List.length_nil, Nat.zero_add]
      exact (Nat.div_eq_of_lt (by omega)).symm
    | cons a t =>
      rw [chunkList]
      rw [List.length_cons, ih ((a :: t).drop B)
        (by rw [List.length_drop, List.length_cons]; rw [List.length_cons] at hl; omega)]
      rw [List.length_drop, List.length_cons]
      exact (ceil_div_succ (t.length + 1) B hB (by omega)).symm

/-- When no batch fails, the batch loop commits every batch in order and
reports one operation per batch. -/
theorem runBatches_ok (fails : ℕ → Bool) (bs : List (List TokenData))
    (store : List TokenData) (n : ℕ)
    (h : ∀ i, i < bs.length → fails (n + i) = false) :
    runBatches fails bs store n = ⟨bs.foldl applyBatch store, n + bs.length, true⟩ := by
  induction bs generalizing store n with
  | nil => rw [runBatches]; simp
  | cons b bs ih =>
    have h0 : fails n = false := by simpa using h 0 (by simp)
    rw [runBatches, if_neg (by simp [h0])]
    rw [ih (applyBatch store b) (n + 1)
      (fun i hi => by
        rw [show n + 1 + i = n + (1 + i) by omega]
        exact h (1 + i) (by rw [List.length_cons]; omega))]
    rw [List.foldl_cons]
    have : n + 1 + bs.length = n + (bs.length + 1) := by omega
    rw [this, List.length_cons]

/-- When the batch at (0-based) position `K` is the first to fail, the
batch loop commits exactly the first `K` batches, attempts `K + 1`
operations, and raises. -/
theorem runBatches_fail (fails : ℕ → Bool) (bs : List (List TokenData))
    (store : List TokenData) (n K : ℕ) (hK : K < bs.length)
    (hf : fails (n + K) = true) (hprev : ∀ i, i < K → fails (n + i) = false) :
    runBatches fails bs store n =
      ⟨(bs.take K).foldl applyBatch store, n + K + 1, false⟩ := by
  induction bs generalizing store n K with
  | nil => exact absurd hK (by simp)
  | cons b bs ih =>
    cases K with
    | zero =>
      rw [runBatches, if_pos (by simpa using hf)]
      simp
    | succ K =>
      have h0 : fails n = false := by simpa using hprev 0 (by omega)
      rw [runBatches, if_neg (by simp [h0])]
      rw [ih (applyBatch store b) (n + 1) K (by simpa using hK)
        (by rw [show n + 1 + K = n + (K + 1) by omega]; exact hf)
        (fun i hi => by rw [show n + 1 + i = n + (i + 1) by omega]; exact hprev (i + 1) (by omega))]
      rw [List.take_succ_cons, List.foldl_cons]
      have : n + 1 + K + 1 = n + (K + 1) + 1 := by omega
      rw [this]

/-- Claim C8: `bulkInsertTokens` on `N` tokens with configured batch size
`B` builds `⌈N / B⌉` batches; with no failure it issues exactly that many
batch upserts, in order, committing them all; if the batch at position
`K` (0-based; the claim's `K`-th batch is position `K - 1`) is the first
to fail, the call raises after exactly `K + 1` issued operations with
precisely the first `K` batches committed, and no later batch is
attempted.  An empty token list issues no operation. -/
theorem bulkInsert_batches (cfg : ℕ) (now : ℤ) (store : List TokenData)
    (tokens : List Token) (fails : ℕ → Bool) :
    (chunkList (effBatchSize cfg) (effBatchSize_pos cfg) tokens).length
      = (tokens.length + effBatchSize cfg - 1) / effBatchSize cfg ∧
    (tokens = [] → bulkInsertTokens cfg now fails store tokens = ⟨store, 0, true⟩) ∧
    (tokens ≠ [] →
      ((∀ i, i < (tokens.length + effBatchSize cfg - 1) / effBatchSize cfg →
          fails i = false) →
        bulkInsertTokens cfg now fails store tokens =
          ⟨((chunkList (effBatchSize cfg) (effBatchSize_pos cfg) tokens).map
              (fun b => b.map (convertToTokenData now))).foldl applyBatch store,
            (tokens.length + effBatchSize cfg - 1) / effBatchSize cfg, true⟩) ∧
      (∀ K, K < (tokens.length + effBatchSize cfg - 1) / effBatchSize cfg →
        fails K = true → (∀ i, i < K → fails i = false) →
        bulkInsertTokens cfg now fails store tokens =
          ⟨(((chunkList (effBatchSize cfg) (effBatchSize_pos cfg) tokens).map
              (fun b => b.map (convertToTokenData now))).take K).foldl applyBatch store,
            K + 1, false⟩)) := by
  have hblen : (((chunkList (effBatchSize cfg) (effBatchSize_pos cfg) tokens).map
      (fun b => b.map (convertToTokenData now)))).length
      = (tokens.length + effBatchSize cfg - 1) / effBatchSize cfg := by
    rw [List.length_map, chunkList_length]
  refine ⟨chunkList_length _ _ _, ?_, ?_⟩
  · intro h
    subst h
    rfl
  · intro hne
    have hlen0 : ¬(tokens.length = 0) := fun h => hne (List.length_eq_zero.mp h)
    constructor
    · intro hok
      simp only [bulkInsertTokens]
      rw [if_neg hlen0]
      rw [runBatches_ok fails _ store 0
        (fun i hi => by simpa using hok i (by rw [← hblen]; simpa using hi))]
      rw [hblen]
      simp
    · intro K hK hfK hprev
      simp only [bulkInsertTokens]
      rw [if_neg hlen0]
      rw [runBatches_fail fails _ store 0 K (by rw [hblen]; exact hK)
        (by simpa using hfK) (fun i hi => by simpa using hprev i hi)]
      simp

/-- Witness for C8: three tokens with batch size 2 make two batches; with
no failure both commit (`ok`, two operations); with the second batch
failing, the call raises after two issued operations with exactly the
first batch committed. -/
theorem bulkInsert_batches_witness :
    bulkInsertTokens 2 0 (fun _ => false) [] demoTokens =
      ⟨((chunkList (effBatchSize 2) (effBatchSize_pos 2) demoTokens).map
          (fun b => b.map (convertToTokenData 0))).foldl applyBatch [],
        (demoTokens.length + effBatchSize 2 - 1) / effBatchSize 2, true⟩ ∧
    bulkInsertTokens 2 0 (fun i => decide (1 ≤ i)) [] demoTokens =
      ⟨(((chunkList (effBatchSize 2) (effBatchSize_pos 2) demoTokens).map
          (fun b => b.map (convertToTokenData 0))).take 1).foldl applyBatch [],
        1 + 1, false⟩ :=
  ⟨((bulkInsert_batches 2 0 [] demoTokens (fun _ => false)).2.2
      (by decide)).1 (fun i _ => rfl),
   ((bulkInsert_batches 2 0 [] demoTokens (fun i => decide (1 ≤ i))).2.2
      (by decide)).2 1 (by decide) (by decide) (by decide)⟩

/-! ## C4 — splitMessage: supporting lemmas -/

end PumpMonitor
